import Mathlib

/-!
# CellUniverse: sphere cells (`3d/C++/src/Cells/Sphere.cpp`)

A shallow embedding of the geometry and population operations of the `Sphere`
cell class, together with theorems about them.

Arithmetic. The C++ code computes in `double` and in `float`. A `double` and
the operations on it are taken as the elements and operations of an ordered
field `α`, and the library functions `sqrt`, `sin` and `cos` are passed as
arguments. A `float` is narrower: wherever the source stores a value in a
`float`, a `cv::Point3f` or a `std::vector<float>`, or operates on two `float`
operands, the embedding rounds with `to_float`, the round-to-nearest-even
narrowing to binary32 (24 significant bits, gradual underflow; magnitudes from
`2^128` on, which overflow in C++, are outside the model). The definitions are
executable over `ℚ`; the theorems instantiate them at `ℝ` with `Real.sqrt`,
`Real.sin` and `Real.cos`.

Randomness. `rand()` and `PerturbParams::get_perturb_offset()` read a hidden
random source. The two values returned by `rand()` are inputs of
`get_split_cells`; the perturbation sampler is a state-passing function on a
random-source state `σ`.
-/

namespace CellUniverse

/-! ## Narrowing to `float` -/

section rounding

variable {α : Type} [LinearOrderedField α] [FloorRing α]

/-- Rounding of `t` to the nearest integer, a tie going to the even one. -/
def round_half_even (t : α) : ℤ :=
  if t - (⌊t⌋ : α) < 1 / 2 then ⌊t⌋
  else if 1 / 2 < t - (⌊t⌋ : α) then ⌊t⌋ + 1
  else if ⌊t⌋ % 2 = 0 then ⌊t⌋ else ⌊t⌋ + 1

/-- Rounding of `x ≥ 0` to binary32: 24 significant bits, the exponent of the
last bit not below `-149`. -/
def round_binary32 (x : α) : α :=
  (round_half_even (x * 2 ^ (23 - max (Int.log 2 x) (-126))) : α)
    * 2 ^ (max (Int.log 2 x) (-126) - 23)

/-- The conversion of a `double` to `float`. -/
def to_float (x : α) : α :=
  if 0 ≤ x then round_binary32 x else -round_binary32 (-x)

end rounding

/-! ## Data model -/

/-- The `cv::Point3f` of the source: three `float` coordinates
(`x`/`values[0]`, `y`/`values[1]`, `z`/`values[2]`). -/
structure Point3f (α : Type) where
  x : α
  y : α
  z : α
deriving DecidableEq

namespace Point3f

variable {α : Type} [LinearOrderedField α] [FloorRing α]

/-- The source's `_position + offset`: a sum of `float` coordinates. -/
def add (p q : Point3f α) : Point3f α :=
  ⟨to_float (p.x + q.x), to_float (p.y + q.y), to_float (p.z + q.z)⟩

/-- The source's `_position - offset`: a difference of `float` coordinates. -/
def sub (p q : Point3f α) : Point3f α :=
  ⟨to_float (p.x - q.x), to_float (p.y - q.y), to_float (p.z - q.z)⟩

/-- The source's `split_axis * (_radius / 2.0)`: each product with the `double`
is stored back in a `float` coordinate. -/
def mul (p : Point3f α) (k : α) : Point3f α :=
  ⟨to_float (p.x * k), to_float (p.y * k), to_float (p.z * k)⟩

end Point3f

/-- Modelled from the spec: the `PerturbParams` class is declared outside
`Sphere.cpp`. Its `get_perturb_offset()` draws one scalar offset and consumes
entropy from the shared random source, whose state has type `σ`. -/
structure PerturbParams (σ α : Type) where
  get_perturb_offset : σ → α × σ

/-- The `SphereConfig` class (lines 8-16). -/
structure SphereConfig (σ α : Type) where
  x : PerturbParams σ α
  y : PerturbParams σ α
  z : PerturbParams σ α
  radius : PerturbParams σ α
  minRadius : α
  maxRadius : α

/-- The `SphereParams` record, with the `name` that the `Sphere` constructor
and `get_split_cells` pass along (lines 18-27, 42, 134). -/
structure SphereParams (α : Type) where
  name : String
  x : α
  y : α
  z : α
  radius : α
deriving DecidableEq

/-- The state of a `Sphere` (lines 30-36): the center is a `cv::Point3f`, the
radius a `double`. The shared `cellConfig` is an argument of the operations
that read it. -/
structure Sphere (α : Type) where
  _name : String
  _position : Point3f α
  _radius : α
  _rotation : α
  dormant : Bool
deriving DecidableEq

/-- Modelled from the spec: the `DefaultDict<float>` class is declared outside
`Sphere.cpp`. It is a finite map from axis names to offsets; reading a key
that is absent yields the default `0` and leaves the map as it is. -/
abbrev DefaultDict (α : Type) := List (String × α)

namespace DefaultDict

variable {α : Type} [LinearOrderedField α]

/-- The source's `params[key]`. -/
def get (params : DefaultDict α) (key : String) : α :=
  match List.lookup key params with
  | some v => v
  | none => 0

/-- The source's `params.empty()`. -/
def empty (params : DefaultDict α) : Bool := List.isEmpty params

end DefaultDict

namespace Sphere

variable {σ α : Type} [LinearOrderedField α] [FloorRing α]

/-- The constructor `Sphere(const SphereParams&)` (lines 41-43): the three
`double` coordinates are stored in the `cv::Point3f` center. -/
def mk_from (init_props : SphereParams α) : Sphere α :=
  { _name := init_props.name
    _position := ⟨to_float init_props.x, to_float init_props.y, to_float init_props.z⟩
    _radius := init_props.radius
    _rotation := 0
    dormant := false }

/-- Method `double get_radius_at(double z) const` (lines 45-50): the `float`
coordinate is widened, all operations are on `double`. -/
def get_radius_at (sqrt : α → α) (s : Sphere α) (z : α) : α :=
  if |s._position.z - z| > s._radius then
    0
  else
    sqrt ((s._radius * s._radius) - ((s._position.z - z) * (s._position.z - z)))

/-- Method `float get_radius_at(float z)` (lines 146-151), the `float` overload:
the argument is a `float`, the difference `_position.z - z` and its square are
`float` operations, and the result is returned as a `float`. -/
def get_radius_at_float (sqrt : α → α) (s : Sphere α) (z : α) : α :=
  let z := to_float z
  if |to_float (s._position.z - z)| > s._radius then
    0
  else
    to_float (sqrt ((s._radius * s._radius) -
      to_float (to_float (s._position.z - z) * to_float (s._position.z - z))))

/-- Method `Sphere get_perturbed_cell()` (lines 85-93): the four offsets are drawn in
the order x, y, z, radius; the radius is not clamped. The constructor stores
the three coordinate sums in the `float` center (a sum already rounded to
`float` would be stored as it is), and the radius sum stays a `double`. -/
def get_perturbed_cell (cellConfig : SphereConfig σ α) (s : Sphere α) (rng : σ) :
    Sphere α × σ :=
  let dx := cellConfig.x.get_perturb_offset rng
  let dy := cellConfig.y.get_perturb_offset dx.2
  let dz := cellConfig.z.get_perturb_offset dy.2
  let dr := cellConfig.radius.get_perturb_offset dz.2
  (mk_from
    { name := s._name
      x := s._position.x + dx.1
      y := s._position.y + dy.1
      z := s._position.z + dz.1
      radius := s._radius + dr.1 }, dr.2)

/-- Method `Sphere get_parameterized_cell(DefaultDict<float> params)` (lines 95-117).
The four offsets and `newRadius` are `float` variables, and the coordinate sums
are `float` operations. The second component is the state of the random source
on return. -/
def get_parameterized_cell (cellConfig : SphereConfig σ α) (s : Sphere α)
    (params : DefaultDict α) (rng : σ) : Sphere α × σ :=
  let xOffset := to_float (DefaultDict.get params "x")
  let yOffset := to_float (DefaultDict.get params "y")
  let zOffset := to_float (DefaultDict.get params "z")
  let radiusOffset := to_float (DefaultDict.get params "radius")
  let offs : (α × α × α × α) × σ :=
    if DefaultDict.empty params then
      let dx := cellConfig.x.get_perturb_offset rng
      let dy := cellConfig.y.get_perturb_offset dx.2
      let dz := cellConfig.z.get_perturb_offset dy.2
      let dr := cellConfig.radius.get_perturb_offset dz.2
      ((to_float dx.1, to_float dy.1, to_float dz.1, to_float dr.1), dr.2)
    else
      ((xOffset, yOffset, zOffset, radiusOffset), rng)
  let xOffset := offs.1.1
  let yOffset := offs.1.2.1
  let zOffset := offs.1.2.2.1
  let radiusOffset := offs.1.2.2.2
  let newRadius := to_float
    (min (max cellConfig.minRadius (s._radius + radiusOffset)) cellConfig.maxRadius)
  (mk_from
    { name := s._name
      x := to_float (s._position.x + xOffset)
      y := to_float (s._position.y + yOffset)
      z := to_float (s._position.z + zOffset)
      radius := newRadius }, offs.2)

/-- Method `bool check_constraints() const` (lines 142-144). -/
def check_constraints (cellConfig : SphereConfig σ α) (s : Sphere α) : Bool :=
  decide (cellConfig.minRadius ≤ s._radius) && decide (s._radius ≤ cellConfig.maxRadius)

/-- Lines 123-139 of `get_split_cells`: the body after the two angles have
been drawn. The split axis, the offset and the two new positions are
`cv::Point3f` values; `halfRadius` is a `double`. -/
def get_split_cells_at (sin cos : α → α) (cellConfig : SphereConfig σ α) (s : Sphere α)
    (theta phi : α) : Sphere α × Sphere α × Bool :=
  let split_axis : Point3f α :=
    ⟨to_float (sin phi * cos theta), to_float (sin phi * sin theta), to_float (cos phi)⟩
  let offset := Point3f.mul split_axis (s._radius / 2.0)
  let new_position1 := Point3f.add s._position offset
  let new_position2 := Point3f.sub s._position offset
  let halfRadius := s._radius / 2.0
  let cell1 := mk_from
    { name := s._name ++ "0"
      x := new_position1.x, y := new_position1.y, z := new_position1.z
      radius := halfRadius }
  let cell2 := mk_from
    { name := s._name ++ "1"
      x := new_position2.x, y := new_position2.y, z := new_position2.z
      radius := halfRadius }
  let constraints := check_constraints cellConfig cell1 && check_constraints cellConfig cell2
  (cell1, cell2, constraints)

/-- Method `SphereParams get_cell_params() const` (lines 153-155). -/
def get_cell_params (s : Sphere α) : SphereParams α :=
  { name := s._name
    x := s._position.x, y := s._position.y, z := s._position.z
    radius := s._radius }

/-- Lines 186-193: the distance between two rows of `positions`. The
difference of two entries is a `float` operation, its square is the `double`
that `pow` returns, and `distance` is a `float` variable. -/
def position_distance (sqrt : α → α) (position1 position2 : List α) : α :=
  to_float (sqrt ((List.range 3).foldl
    (fun distance i =>
      to_float (distance + (to_float (position1.getD i 0 - position2.getD i 0)) ^ 2)) 0))

/-- Lines 209-214: the inner loop over `j`, which stops at the first hit. -/
def overlap_inner (distances radii_sums : List (List α)) (i : ℕ) : List ℕ → Bool
  | [] => false
  | j :: js =>
    if i ≠ j ∧ (distances.getD i []).getD j 0 < (radii_sums.getD i []).getD j 0 then
      true
    else
      overlap_inner distances radii_sums i js

/-- Lines 208-218: the outer loop over `i`, which stops once `overlap` is set. -/
def overlap_outer (distances radii_sums : List (List α)) (n : ℕ) : List ℕ → Bool
  | [] => false
  | i :: is =>
    if overlap_inner distances radii_sums i (List.range n) then
      true
    else
      overlap_outer distances radii_sums n is

/-- Method `static bool check_if_cells_overlap(const std::vector<Sphere>& spheres)`
(lines 175-221): `radii`, `distances` and `radii_sums` hold `float` entries. -/
def check_if_cells_overlap (sqrt : α → α) (spheres : List (Sphere α)) : Bool :=
  let positions : List (List α) :=
    spheres.map (fun cell => [cell._position.x, cell._position.y, cell._position.z])
  let radii : List α := spheres.map (fun cell => to_float (cell._radius * 0.95))
  let distances : List (List α) :=
    positions.map (fun position1 =>
      positions.map (fun position2 => position_distance sqrt position1 position2))
  let radii_sums : List (List α) :=
    radii.map (fun radius1 => radii.map (fun radius2 => to_float (radius1 + radius2)))
  overlap_outer distances radii_sums spheres.length (List.range spheres.length)

end Sphere

end CellUniverse

/-! ## Specification predicates and the population step -/

namespace CellUniverse

variable {σ α : Type} [LinearOrderedField α] [FloorRing α]

/-- The test that `check_if_cells_overlap` applies to the cells at two
positions: `distances[i][j] < radii_sums[i][j]`. -/
def pair_overlaps (sqrt : α → α) (a b : Sphere α) : Prop :=
  Sphere.position_distance sqrt [a._position.x, a._position.y, a._position.z]
      [b._position.x, b._position.y, b._position.z]
    < to_float (to_float (a._radius * 0.95) + to_float (b._radius * 0.95))

/-- No identifier of the population is an initial segment of the identifier at
another position; in particular the identifiers are pairwise distinct. -/
def ids_independent (population : List (Sphere α)) : Prop :=
  (population.map (fun cell => cell._name)).Pairwise
    (fun a b => ¬ a.data <+: b.data ∧ ¬ b.data <+: a.data)

/-- Modelled from the spec: the population driver is outside `Sphere.cpp`. A
split step replaces the cell at index `i` of the population by the two
daughters that `get_split_cells` returns for the drawn angles; an index outside
the population leaves it as it is. -/
def split_cell (sin cos : α → α) (cellConfig : SphereConfig σ α)
    (population : List (Sphere α)) (i : ℕ) (theta phi : α) : List (Sphere α) :=
  match population.get? i with
  | none => population
  | some cell =>
    population.take i ++
      (Sphere.get_split_cells_at sin cos cellConfig cell theta phi).1 ::
      (Sphere.get_split_cells_at sin cos cellConfig cell theta phi).2.1 ::
      population.drop (i + 1)

/-- Modelled from the spec: a sequence of split steps, each given by the index
of the cell to split and the two angles drawn for it. -/
def split_steps (sin cos : α → α) (cellConfig : SphereConfig σ α) :
    List (Sphere α) → List (ℕ × α × α) → List (Sphere α)
  | population, [] => population
  | population, step :: rest =>
    split_steps sin cos cellConfig
      (split_cell sin cos cellConfig population step.1 step.2.1 step.2.2) rest

end CellUniverse

/-! ## Fixtures for the examples -/

namespace CellUniverse

/-- A sampler for examples: it always draws `v`, and the random-source state
counts the draws made so far. -/
def counting_sampler {α : Type} (v : α) : PerturbParams ℕ α :=
  ⟨fun draws => (v, draws + 1)⟩

/-- A configuration for examples, whose four samplers draw `dx`, `dy`, `dz`
and `dr`. -/
def fixed_config {α : Type} (dx dy dz dr minRadius maxRadius : α) : SphereConfig ℕ α :=
  { x := counting_sampler dx
    y := counting_sampler dy
    z := counting_sampler dz
    radius := counting_sampler dr
    minRadius := minRadius
    maxRadius := maxRadius }

end CellUniverse

/-! ## Theorems -/

namespace CellUniverse

open Sphere

/-! ### The narrowing to `float` -/

section rounding_lemmas

variable {α : Type} [LinearOrderedField α] [FloorRing α]

/-- Zero is a binary32 value. -/
theorem to_float_zero : to_float (0 : α) = 0 := by
  simp [to_float, round_binary32, round_half_even]

/-- The narrowing is odd. -/
theorem to_float_neg (x : α) : to_float (-x) = -to_float x := by
  rcases lt_trichotomy x 0 with h | h | h
  · have h1 : (0 : α) ≤ -x := by linarith
    have h2 : ¬ (0 : α) ≤ x := not_le.2 h
    simp only [to_float, if_pos h1, if_neg h2, neg_neg]
  · subst h
    simp [to_float_zero]
  · have h1 : ¬ (0 : α) ≤ -x := by
      intro h'
      linarith
    have h2 : (0 : α) ≤ x := h.le
    simp only [to_float, if_neg h1, if_pos h2, neg_neg]

/-- A number within half a unit of the integer `m` rounds to `m`. -/
theorem round_half_even_of_near (t : α) (m : ℤ) (h1 : (m : α) - 1 / 2 < t)
    (h2 : t < (m : α) + 1 / 2) : round_half_even t = m := by
  have hf : ⌊t⌋ = m ∨ ⌊t⌋ = m - 1 := by
    have hle : ⌊t⌋ ≤ m := by
      have : ⌊t⌋ < m + 1 := by
        rw [Int.floor_lt]
        push_cast
        linarith
      omega
    have hge : m - 1 ≤ ⌊t⌋ := by
      rw [Int.le_floor]
      push_cast
      linarith
    omega
  rcases hf with hf | hf
  · have h3 : t - (m : α) < 1 / 2 := by linarith
    simp only [round_half_even, hf, if_pos h3]
  · have h3 : ¬ (t - ((m - 1 : ℤ) : α) < 1 / 2) := by
      push_cast
      intro h
      linarith
    have h4 : 1 / 2 < t - ((m - 1 : ℤ) : α) := by
      push_cast
      linarith
    simp only [round_half_even, hf, if_neg h3, if_pos h4]
    omega

/-- Evaluation of the narrowing inside one binade. -/
theorem to_float_of_near (x : α) (e m : ℤ) (he : -126 ≤ e)
    (h1 : (2 : α) ^ e ≤ x) (h2 : x < (2 : α) ^ (e + 1))
    (h3 : (m : α) - 1 / 2 < x * 2 ^ (23 - e)) (h4 : x * 2 ^ (23 - e) < (m : α) + 1 / 2) :
    to_float x = (m : α) * 2 ^ (e - 23) := by
  have hpos : (0 : α) < x := lt_of_lt_of_le (zpow_pos (by norm_num) e) h1
  have hlog : Int.log 2 x = e := by
    have ha : e ≤ Int.log 2 x := by
      rw [← Int.zpow_le_iff_le_log (by norm_num) hpos]
      exact_mod_cast h1
    have hb : Int.log 2 x < e + 1 := by
      rw [← Int.lt_zpow_iff_log_lt (by norm_num) hpos]
      exact_mod_cast h2
    omega
  have hmax : max (Int.log 2 x) (-126) = e := by
    rw [hlog]
    exact max_eq_left he
  simp only [to_float, if_pos hpos.le, round_binary32, hmax,
    round_half_even_of_near _ m h3 h4]

/-- Rounding does not go below the floor. -/
theorem floor_le_round_half_even (t : α) : ⌊t⌋ ≤ round_half_even t := by
  unfold round_half_even
  split_ifs <;> omega

/-- Rounding does not go above the floor plus one. -/
theorem round_half_even_le_floor_succ (t : α) : round_half_even t ≤ ⌊t⌋ + 1 := by
  unfold round_half_even
  split_ifs <;> omega

/-- Evaluation of the narrowing below the smallest normal number. -/
theorem to_float_of_near_subnormal (x : α) (m : ℤ) (h0 : 0 < x)
    (h2 : x < (2 : α) ^ (-126 : ℤ))
    (h3 : (m : α) - 1 / 2 < x * 2 ^ (149 : ℤ)) (h4 : x * 2 ^ (149 : ℤ) < (m : α) + 1 / 2) :
    to_float x = (m : α) * 2 ^ (-149 : ℤ) := by
  have hlog : Int.log 2 x < -126 := by
    rw [← Int.lt_zpow_iff_log_lt (by norm_num) h0]
    exact_mod_cast h2
  have hmax : max (Int.log 2 x) (-126) = -126 := max_eq_right hlog.le
  have e1 : (23 : ℤ) - -126 = 149 := by norm_num
  have e2 : (-126 : ℤ) - 23 = -149 := by norm_num
  simp only [to_float, if_pos h0.le, round_binary32, hmax, e1, e2,
    round_half_even_of_near _ m h3 h4]

/-- A binary32 value is left as it is by the narrowing. -/
theorem to_float_to_float (x : α) : to_float (to_float x) = to_float x := by
  have key : ∀ x : α, 0 < x → to_float (round_binary32 x) = round_binary32 x := by
    intro x hx
    have h2pos : ∀ k : ℤ, (0 : α) < 2 ^ k := fun k => zpow_pos (by norm_num) k
    have hL1 : (2 : α) ^ Int.log 2 x ≤ x := by
      have := Int.zpow_log_le_self (b := 2) (by norm_num) hx
      exact_mod_cast this
    have hL2 : x < (2 : α) ^ (Int.log 2 x + 1) := by
      have := Int.lt_zpow_succ_log_self (b := 2) (by norm_num) x
      exact_mod_cast this
    obtain ⟨e, he⟩ : ∃ e, e = max (Int.log 2 x) (-126) := ⟨_, rfl⟩
    have hle : Int.log 2 x ≤ e := he ▸ le_max_left _ _
    have hge : -126 ≤ e := he ▸ le_max_right _ _
    obtain ⟨t, ht⟩ : ∃ t, t = x * (2 : α) ^ (23 - e) := ⟨_, rfl⟩
    obtain ⟨m, hm⟩ : ∃ m, m = round_half_even t := ⟨_, rfl⟩
    have hy : round_binary32 x = (m : α) * 2 ^ (e - 23) := by
      simp only [round_binary32, ← he, ← ht, ← hm]
    have ht0 : 0 ≤ t := by
      rw [ht]
      exact mul_nonneg hx.le (h2pos _).le
    have ht24 : t < 2 ^ (24 : ℤ) := by
      have h1 : x < (2 : α) ^ (e + 1) :=
        lt_of_lt_of_le hL2 (zpow_le_zpow_right₀ (by norm_num) (by omega))
      have h3 : (2 : α) ^ (e + 1) * 2 ^ (23 - e) = 2 ^ (24 : ℤ) := by
        rw [← zpow_add₀ (by norm_num)]
        congr 1
        omega
      rw [ht, ← h3]
      exact mul_lt_mul_of_pos_right h1 (h2pos _)
    have hm0 : 0 ≤ m := by
      have h1 : (0 : ℤ) ≤ ⌊t⌋ := Int.floor_nonneg.2 ht0
      have h2 := floor_le_round_half_even t
      omega
    have hm24 : m ≤ 2 ^ 24 := by
      have h1 : ⌊t⌋ < 2 ^ 24 := by
        rw [Int.floor_lt]
        push_cast
        exact_mod_cast ht24
      have h2 := round_half_even_le_floor_succ t
      omega
    rw [hy]
    rcases eq_or_lt_of_le hm0 with h0 | h0
    · rw [← h0]
      simp [to_float_zero]
    rcases lt_or_le m (2 ^ 23) with hs | hs
    · -- below the normal range
      have hee : e = -126 := by
        by_contra hne
        have hLe : Int.log 2 x = e := by
          rcases max_cases (Int.log 2 x) (-126) with ⟨h, _⟩ | ⟨h, _⟩
          · rw [he, h]
          · exact absurd (he.trans h) hne
        have h1 : (2 : α) ^ (23 : ℤ) ≤ t := by
          have h3 : (2 : α) ^ e * 2 ^ (23 - e) = 2 ^ (23 : ℤ) := by
            rw [← zpow_add₀ (by norm_num)]
            congr 1
            omega
          rw [ht, ← h3]
          exact mul_le_mul_of_nonneg_right (hLe ▸ hL1) (h2pos _).le
        have h4 : (2 : ℤ) ^ 23 ≤ ⌊t⌋ := by
          rw [Int.le_floor]
          push_cast
          exact_mod_cast h1
        have h5 := floor_le_round_half_even t
        omega
      subst hee
      have e2 : (-126 : ℤ) - 23 = -149 := by norm_num
      rw [e2]
      have hmpos : (0 : α) < (m : α) := by exact_mod_cast h0
      have hcancel : (m : α) * 2 ^ (-149 : ℤ) * 2 ^ (149 : ℤ) = m := by
        rw [mul_assoc, ← zpow_add₀ (by norm_num)]
        norm_num
      apply to_float_of_near_subnormal _ m (mul_pos hmpos (h2pos _))
      · have h3 : (2 : α) ^ (23 : ℤ) * 2 ^ (-149 : ℤ) = 2 ^ (-126 : ℤ) := by
          rw [← zpow_add₀ (by norm_num)]
          norm_num
        rw [← h3]
        apply mul_lt_mul_of_pos_right _ (h2pos _)
        exact_mod_cast hs
      · rw [hcancel]
        linarith
      · rw [hcancel]
        linarith
    rcases lt_or_eq_of_le hm24 with hb | hb
    · -- inside the binade of exponent `e`
      have hcancel : (m : α) * 2 ^ (e - 23) * 2 ^ (23 - e) = m := by
        rw [mul_assoc, ← zpow_add₀ (by norm_num)]
        have : e - 23 + (23 - e) = 0 := by omega
        rw [this, zpow_zero, mul_one]
      apply to_float_of_near _ e m hge
      · have h3 : (2 : α) ^ (23 : ℤ) * 2 ^ (e - 23) = 2 ^ e := by
          rw [← zpow_add₀ (by norm_num)]
          congr 1
          omega
        rw [← h3]
        apply mul_le_mul_of_nonneg_right _ (h2pos _).le
        exact_mod_cast hs
      · have h3 : (2 : α) ^ (24 : ℤ) * 2 ^ (e - 23) = 2 ^ (e + 1) := by
          rw [← zpow_add₀ (by norm_num)]
          congr 1
          omega
        rw [← h3]
        apply mul_lt_mul_of_pos_right _ (h2pos _)
        exact_mod_cast hb
      · rw [hcancel]
        linarith
      · rw [hcancel]
        linarith
    · -- the rounding reached the next power of two
      have h24 : ((2 ^ 24 : ℤ) : α) = 2 ^ (24 : ℤ) := by norm_num
      have h23 : ((2 ^ 23 : ℤ) : α) = 2 ^ (23 : ℤ) := by norm_num
      have hval : (m : α) * 2 ^ (e - 23) = 2 ^ (e + 1) := by
        rw [hb, h24, ← zpow_add₀ (by norm_num)]
        congr 1
        omega
      have hval2 : (2 : α) ^ (e + 1) = ((2 ^ 23 : ℤ) : α) * 2 ^ (e + 1 - 23) := by
        rw [h23, ← zpow_add₀ (by norm_num)]
        congr 1
        omega
      have hcancel : (2 : α) ^ (e + 1) * 2 ^ (23 - (e + 1)) = ((2 ^ 23 : ℤ) : α) := by
        rw [h23, ← zpow_add₀ (by norm_num)]
        congr 1
        omega
      rw [hval]
      nth_rewrite 2 [hval2]
      apply to_float_of_near _ (e + 1) (2 ^ 23) (by omega) le_rfl
      · exact zpow_lt_zpow_right₀ (by norm_num) (by omega)
      · rw [hcancel]
        linarith
      · rw [hcancel]
        linarith
  rcases lt_trichotomy x 0 with h | h | h
  · have h2 : ¬ (0 : α) ≤ x := not_le.2 h
    have e1 : to_float x = -round_binary32 (-x) := by simp only [to_float, if_neg h2]
    rw [e1, to_float_neg, key (-x) (by linarith)]
  · subst h
    simp [to_float_zero]
  · have e1 : to_float x = round_binary32 x := by simp only [to_float, if_pos h.le]
    rw [e1, key x h]

/-- A number with a 24-bit significand and an exponent in the normal range is a
binary32 value. -/
theorem to_float_of_eq (x : α) (e m : ℤ) (he : -126 ≤ e) (hm1 : 2 ^ 23 ≤ m)
    (hm2 : m < 2 ^ 24) (hx : x = (m : α) * 2 ^ (e - 23)) : to_float x = x := by
  have h2pos : ∀ k : ℤ, (0 : α) < 2 ^ k := fun k => zpow_pos (by norm_num) k
  have h24 : ((2 ^ 24 : ℤ) : α) = 2 ^ (24 : ℤ) := by norm_num
  have h23 : ((2 ^ 23 : ℤ) : α) = 2 ^ (23 : ℤ) := by norm_num
  have hcancel : (m : α) * 2 ^ (e - 23) * 2 ^ (23 - e) = m := by
    rw [mul_assoc, ← zpow_add₀ (by norm_num)]
    have : e - 23 + (23 - e) = 0 := by omega
    rw [this, zpow_zero, mul_one]
  have hm1c : (2 : α) ^ (23 : ℤ) ≤ (m : α) := by
    rw [← h23]
    exact_mod_cast hm1
  have hm2c : (m : α) < (2 : α) ^ (24 : ℤ) := by
    rw [← h24]
    exact_mod_cast hm2
  nth_rewrite 2 [hx]
  rw [hx]
  apply to_float_of_near _ e m he
  · have h3 : (2 : α) ^ (23 : ℤ) * 2 ^ (e - 23) = 2 ^ e := by
      rw [← zpow_add₀ (by norm_num)]
      congr 1
      omega
    rw [← h3]
    exact mul_le_mul_of_nonneg_right hm1c (h2pos _).le
  · have h3 : (2 : α) ^ (24 : ℤ) * 2 ^ (e - 23) = 2 ^ (e + 1) := by
      rw [← zpow_add₀ (by norm_num)]
      congr 1
      omega
    rw [← h3]
    exact mul_lt_mul_of_pos_right hm2c (h2pos _)
  · rw [hcancel]
    linarith
  · rw [hcancel]
    linarith

end rounding_lemmas

/-! ### Helper lemmas -/

section loop_lemmas

variable {α : Type} [LinearOrderedField α]

/-- The inner loop reports a hit exactly when some visited `j` differs from `i`
and has `distances[i][j] < radii_sums[i][j]`. -/
theorem overlap_inner_iff (D R : List (List α)) (i : ℕ) (js : List ℕ) :
    overlap_inner D R i js = true ↔
      ∃ j ∈ js, i ≠ j ∧ (D.getD i []).getD j 0 < (R.getD i []).getD j 0 := by
  induction js with
  | nil => simp [overlap_inner]
  | cons j js ih =>
    by_cases h : i ≠ j ∧ (D.getD i []).getD j 0 < (R.getD i []).getD j 0
    · simp only [overlap_inner, if_pos h, true_iff]
      exact ⟨j, List.mem_cons_self _ _, h⟩
    · simp only [overlap_inner, if_neg h, ih, List.mem_cons]
      constructor
      · rintro ⟨k, hk, hk2⟩
        exact ⟨k, Or.inr hk, hk2⟩
      · rintro ⟨k, hk | hk, hk2⟩
        · subst hk
          exact absurd hk2 h
        · exact ⟨k, hk, hk2⟩

/-- The outer loop reports a hit exactly when the inner loop does for some
visited `i`. -/
theorem overlap_outer_iff (D R : List (List α)) (n : ℕ) (is : List ℕ) :
    overlap_outer D R n is = true ↔
      ∃ i ∈ is, ∃ j ∈ List.range n,
        i ≠ j ∧ (D.getD i []).getD j 0 < (R.getD i []).getD j 0 := by
  induction is with
  | nil => simp [overlap_outer]
  | cons i is ih =>
    by_cases h : overlap_inner D R i (List.range n) = true
    · simp only [overlap_outer, if_pos h, true_iff]
      exact ⟨i, List.mem_cons_self _ _, (overlap_inner_iff D R i _).1 h⟩
    · simp only [overlap_outer, if_neg h, ih, List.mem_cons]
      constructor
      · rintro ⟨k, hk, hk2⟩
        exact ⟨k, Or.inr hk, hk2⟩
      · rintro ⟨k, hk | hk, hk2⟩
        · subst hk
          exact absurd ((overlap_inner_iff D R k _).2 hk2) h
        · exact ⟨k, hk, hk2⟩

/-- Entry `[i][j]` of a matrix built row by row from the population. -/
theorem getD_map_map (f : Sphere α → Sphere α → α) (spheres : List (Sphere α)) (i j : ℕ)
    (hi : i < spheres.length) (hj : j < spheres.length) :
    ((spheres.map (fun a => spheres.map (fun b => f a b))).getD i []).getD j 0 =
      f (spheres.get ⟨i, hi⟩) (spheres.get ⟨j, hj⟩) := by
  simp [List.getD_eq_getElem?_getD, List.getElem?_map, List.getElem?_eq_getElem, hi, hj]

end loop_lemmas

section lemmas

variable {α : Type} [LinearOrderedField α] [FloorRing α]

/-- The distance loop on two coordinate triples. -/
theorem position_distance_triple (sqrt : α → α) (a b c a' b' c' : α) :
    position_distance sqrt [a, b, c] [a', b', c'] =
      to_float (sqrt (to_float (to_float (to_float (0 + to_float (a - a') ^ 2)
        + to_float (b - b') ^ 2) + to_float (c - c') ^ 2))) := by
  simp [position_distance, List.range, List.range.loop]

/-- The two matrices of `check_if_cells_overlap`, written over the population. -/
theorem check_if_cells_overlap_unfold (sqrt : α → α) (spheres : List (Sphere α)) :
    check_if_cells_overlap sqrt spheres =
      overlap_outer
        (spheres.map (fun a => spheres.map (fun b =>
          position_distance sqrt [a._position.x, a._position.y, a._position.z]
            [b._position.x, b._position.y, b._position.z])))
        (spheres.map (fun a => spheres.map (fun b =>
          to_float (to_float (a._radius * 0.95) + to_float (b._radius * 0.95)))))
        spheres.length (List.range spheres.length) := by
  simp only [check_if_cells_overlap, List.map_map, Function.comp_def]

/-- The overlap check over any ordered field and any `sqrt`: it holds exactly
when the cells at two distinct indices pass the pair test of the loop. -/
theorem check_if_cells_overlap_iff_gen (sqrt : α → α) (spheres : List (Sphere α)) :
    check_if_cells_overlap sqrt spheres = true ↔
      ∃ i j : Fin spheres.length, i ≠ j ∧
        pair_overlaps sqrt (spheres.get i) (spheres.get j) := by
  rw [check_if_cells_overlap_unfold, overlap_outer_iff]
  unfold pair_overlaps
  constructor
  · rintro ⟨i, hi, j, hj, hne, hlt⟩
    rw [List.mem_range] at hi hj
    rw [getD_map_map _ spheres i j hi hj, getD_map_map _ spheres i j hi hj] at hlt
    exact ⟨⟨i, hi⟩, ⟨j, hj⟩, fun h => hne (congrArg Fin.val h), hlt⟩
  · rintro ⟨⟨i, hi⟩, ⟨j, hj⟩, hne, hlt⟩
    refine ⟨i, List.mem_range.2 hi, j, List.mem_range.2 hj, fun h => hne (Fin.ext h), ?_⟩
    rw [getD_map_map _ spheres i j hi hj, getD_map_map _ spheres i j hi hj]
    exact hlt

/-- The pair test written out: the `float` distance against the `float` sum of
the `float` shrunk radii. -/
theorem pair_overlaps_iff (sqrt : α → α) (a b : Sphere α) :
    pair_overlaps sqrt a b ↔
      to_float (sqrt (to_float (to_float (to_float
          (0 + to_float (a._position.x - b._position.x) ^ 2)
          + to_float (a._position.y - b._position.y) ^ 2)
          + to_float (a._position.z - b._position.z) ^ 2)))
        < to_float (to_float (a._radius * 0.95) + to_float (b._radius * 0.95)) := by
  unfold pair_overlaps
  rw [position_distance_triple]

/-- The pair test does not depend on the order of the two cells. -/
theorem pair_overlaps_symm (sqrt : α → α) (a b : Sphere α) :
    pair_overlaps sqrt a b → pair_overlaps sqrt b a := by
  intro h
  rw [pair_overlaps_iff] at h ⊢
  have e : ∀ u v : α, to_float (v - u) ^ 2 = to_float (u - v) ^ 2 := by
    intro u v
    rw [← neg_sub u v, to_float_neg, neg_sq]
  rw [e a._position.x, e a._position.y, e a._position.z,
    add_comm (to_float (b._radius * 0.95))]
  exact h

/-- The overlap check fails exactly when no two cells of the population, taken
in list order, pass the pair test. -/
theorem check_if_cells_overlap_false_iff (sqrt : α → α) (spheres : List (Sphere α)) :
    check_if_cells_overlap sqrt spheres = false ↔
      spheres.Pairwise (fun a b => ¬ pair_overlaps sqrt a b) := by
  rw [← Bool.not_eq_true, check_if_cells_overlap_iff_gen, List.pairwise_iff_get]
  constructor
  · intro h i j hij hp
    exact h ⟨i, j, ne_of_lt hij, hp⟩
  · rintro h ⟨i, j, hne, hp⟩
    rcases lt_or_gt_of_ne hne with hlt | hgt
    · exact h i j hlt hp
    · exact h j i hgt (pair_overlaps_symm sqrt _ _ hp)

end lemmas

/-- Reading a key that no entry of the map carries yields the default `0`. -/
theorem DefaultDict_get_absent {α : Type} [LinearOrderedField α] (params : DefaultDict α)
    (key : String) (h : ∀ v, (key, v) ∉ params) : DefaultDict.get params key = 0 := by
  have hl : List.lookup key params = none := by
    induction params with
    | nil => rfl
    | cons p ps ih =>
      obtain ⟨k, v⟩ := p
      have hk : ¬ key = k := by
        intro hk
        subst hk
        exact h v (List.mem_cons_self _ _)
      have hb : (key == k) = false := by simpa using hk
      rw [List.lookup_cons, hb]
      exact ih (fun v hv => h v (List.mem_cons_of_mem _ hv))
  simp only [DefaultDict.get, hl]

/-- Appending one character to an identifier `n` keeps it independent of every
identifier `m` that `n` is independent of. -/
theorem independent_append (m n : List Char) (c : Char)
    (h : ¬ m <+: n ∧ ¬ n <+: m) : ¬ m <+: n ++ [c] ∧ ¬ (n ++ [c]) <+: m := by
  refine ⟨?_, ?_⟩
  · intro hp
    rcases List.prefix_concat_iff.1 hp with he | hm
    · exact h.2 (he ▸ List.prefix_append n [c])
    · exact h.1 hm
  · intro hp
    exact h.2 ((List.prefix_append n [c]).trans hp)

/-- The two daughter identifiers are independent of each other. -/
theorem independent_daughters (n : List Char) :
    ¬ (n ++ ['0']) <+: n ++ ['1'] ∧ ¬ (n ++ ['1']) <+: n ++ ['0'] := by
  refine ⟨?_, ?_⟩
  · intro hp
    have := (List.prefix_append_right_inj n).1 hp
    have := this.eq_of_length rfl
    exact absurd this (by decide)
  · intro hp
    have := (List.prefix_append_right_inj n).1 hp
    have := this.eq_of_length rfl
    exact absurd this (by decide)

/-- Replacing one identifier of an independent list by its two extensions keeps
the list independent. -/
theorem independent_replace (pre post : List String) (n : String)
    (h : (pre ++ n :: post).Pairwise (fun a b => ¬ a.data <+: b.data ∧ ¬ b.data <+: a.data)) :
    (pre ++ (n ++ "0") :: (n ++ "1") :: post).Pairwise
      (fun a b => ¬ a.data <+: b.data ∧ ¬ b.data <+: a.data) := by
  rw [List.pairwise_append, List.pairwise_cons] at h
  obtain ⟨hpre, ⟨hn, hpost⟩, hcross⟩ := h
  have d0 : (n ++ "0").data = n.data ++ ['0'] := by simp [String.data_append]
  have d1 : (n ++ "1").data = n.data ++ ['1'] := by simp [String.data_append]
  rw [List.pairwise_append, List.pairwise_cons, List.pairwise_cons]
  refine ⟨hpre, ⟨?_, ?_, hpost⟩, ?_⟩
  · intro b hb
    rcases List.mem_cons.1 hb with hb | hb
    · subst hb
      rw [d0, d1]
      exact independent_daughters n.data
    · have := independent_append b.data n.data '0' (hn b hb).symm
      rw [d0]
      exact this.symm
  · intro b hb
    have := independent_append b.data n.data '1' (hn b hb).symm
    rw [d1]
    exact this.symm
  · intro a ha b hb
    rcases List.mem_cons.1 hb with hb | hb
    · subst hb
      rw [d0]
      exact independent_append a.data n.data '0' (hcross a ha n (List.mem_cons_self _ _))
    · rcases List.mem_cons.1 hb with hb | hb
      · subst hb
        rw [d1]
        exact independent_append a.data n.data '1' (hcross a ha n (List.mem_cons_self _ _))
      · exact hcross a ha b (List.mem_cons_of_mem _ hb)

section lemmas3

variable {σ α : Type} [LinearOrderedField α] [FloorRing α]

/-- One split step keeps the identifiers independent. -/
theorem split_cell_ids_independent (sin cos : α → α) (cfg : SphereConfig σ α)
    (population : List (Sphere α)) (i : ℕ) (theta phi : α)
    (h : ids_independent population) :
    ids_independent (split_cell sin cos cfg population i theta phi) := by
  unfold split_cell
  cases hc : population.get? i with
  | none => exact h
  | some cell =>
    obtain ⟨hi, hcell⟩ := List.get?_eq_some.1 hc
    have hsplit : population = population.take i ++ cell :: population.drop (i + 1) := by
      have hd : population.drop i = cell :: population.drop (i + 1) := by
        rw [← hcell]
        exact List.drop_eq_getElem_cons hi
      rw [← hd, List.take_append_drop]
    unfold ids_independent at h ⊢
    rw [hsplit, List.map_append, List.map_cons] at h
    simp only [List.map_append, List.map_cons]
    exact independent_replace _ _ _ h

/-- Every sequence of split steps keeps the identifiers independent. -/
theorem split_steps_ids_independent_gen (sin cos : α → α) (cfg : SphereConfig σ α)
    (steps : List (ℕ × α × α)) :
    ∀ population : List (Sphere α), ids_independent population →
      ids_independent (split_steps sin cos cfg population steps) := by
  induction steps with
  | nil => exact fun _ h => h
  | cons step rest ih =>
    intro population h
    exact ih _ (split_cell_ids_independent sin cos cfg population _ _ _ h)

end lemmas3

/-- Independent identifiers are pairwise distinct. -/
theorem ids_independent_nodup {α : Type} (population : List (Sphere α))
    (h : ids_independent population) :
    (population.map (fun cell => cell._name)).Nodup := by
  unfold ids_independent at h
  refine List.Pairwise.imp ?_ h
  intro a b hab he
  exact hab.1 (he ▸ List.prefix_refl _)

/-! ### Concrete values of the narrowing -/

/-- The number `1` is a binary32 value. -/
theorem to_float_one : to_float (1 : ℝ) = 1 :=
  to_float_of_eq _ 0 8388608 (by norm_num) (by norm_num) (by norm_num) (by norm_num)

/-- The number `2^25` is a binary32 value. -/
theorem to_float_two_pow_25 : to_float (33554432 : ℝ) = 33554432 :=
  to_float_of_eq _ 25 8388608 (by norm_num) (by norm_num) (by norm_num) (by norm_num)

/-- The number `100` is a binary32 value. -/
theorem to_float_hundred : to_float (100 : ℝ) = 100 :=
  to_float_of_eq _ 6 13107200 (by norm_num) (by norm_num) (by norm_num) (by norm_num)

/-- The number `20.1` is not a binary32 value: it rounds up. -/
theorem to_float_twenty_point_one : to_float (201 / 10 : ℝ) = 10538189 / 524288 := by
  rw [to_float_of_near (201 / 10 : ℝ) 4 10538189 (by norm_num) (by norm_num)
    (by norm_num) (by norm_num) (by norm_num)]
  norm_num

/-- The number `10.1` is not a binary32 value: it rounds up. -/
theorem to_float_ten_point_one : to_float (101 / 10 : ℝ) = 5295309 / 524288 := by
  rw [to_float_of_near (101 / 10 : ℝ) 3 10590618 (by norm_num) (by norm_num)
    (by norm_num) (by norm_num) (by norm_num)]
  norm_num

/-- Above `2^25` the binary32 values are `4` apart: `2^25 + 1` rounds down to
`2^25`. -/
theorem to_float_two_pow_25_succ : to_float (33554433 : ℝ) = 33554432 := by
  rw [to_float_of_near (33554433 : ℝ) 25 8388608 (by norm_num) (by norm_num)
    (by norm_num) (by norm_num) (by norm_num)]
  norm_num

/-- The reads of the explicit map with the four keys. -/
theorem DefaultDict_get_explicit {α : Type} [LinearOrderedField α] (a b c d : α) :
    DefaultDict.get [("x", a), ("y", b), ("z", c), ("radius", d)] "x" = a ∧
    DefaultDict.get [("x", a), ("y", b), ("z", c), ("radius", d)] "y" = b ∧
    DefaultDict.get [("x", a), ("y", b), ("z", c), ("radius", d)] "z" = c ∧
    DefaultDict.get [("x", a), ("y", b), ("z", c), ("radius", d)] "radius" = d := by
  refine ⟨?_, ?_, ?_, ?_⟩ <;> simp [DefaultDict.get, List.lookup]

/-- C1: for every sphere and every height `z`, `get_radius_at` returns `0` when
`|cz - z| > r` and `sqrt (r^2 - (cz - z)^2)` otherwise. The sphere `A` at the
origin with radius `10` gives `sqrt 75`, between `8.66` and `8.67`, at `z = 5`
and gives `0` at `z = 11`. -/
theorem get_radius_at_spec :
    (∀ (s : Sphere ℝ) (z : ℝ),
      get_radius_at Real.sqrt s z =
        if |s._position.z - z| > s._radius then 0
        else Real.sqrt (s._radius ^ 2 - (s._position.z - z) ^ 2)) ∧
    get_radius_at Real.sqrt (mk_from ⟨"A", 0, 0, 0, 10⟩) 5 = Real.sqrt 75 ∧
    (8.66 : ℝ) < Real.sqrt 75 ∧ Real.sqrt 75 < (8.67 : ℝ) ∧
    get_radius_at Real.sqrt (mk_from ⟨"A", 0, 0, 0, 10⟩) 11 = 0 := by
  refine ⟨?_, ?_, ?_, ?_, ?_⟩
  · intro s z
    simp only [get_radius_at, sq]
  · have h : ¬ (|(0 : ℝ) - 5| > 10) := by norm_num [abs_of_nonneg]
    simp only [get_radius_at, mk_from, to_float_zero, if_neg h]
    norm_num
  · rw [Real.lt_sqrt (by norm_num)]
    norm_num
  · rw [Real.sqrt_lt' (by norm_num)]
    norm_num
  · have h : |(0 : ℝ) - 11| > 10 := by norm_num [abs_of_nonneg]
    simp only [get_radius_at, mk_from, to_float_zero, if_pos h]

/-- C5: the boolean returned by `get_split_cells` is `check_constraints` of the
first daughter AND `check_constraints` of the second; it is true exactly when
`minRadius ≤ r/2 ≤ maxRadius` for the parent radius `r`. -/
theorem get_split_cells_constraints {σ : Type} (cfg : SphereConfig σ ℝ) (s : Sphere ℝ)
    (theta phi : ℝ) :
    (get_split_cells_at Real.sin Real.cos cfg s theta phi).2.2 =
      (check_constraints cfg (get_split_cells_at Real.sin Real.cos cfg s theta phi).1 &&
        check_constraints cfg (get_split_cells_at Real.sin Real.cos cfg s theta phi).2.1) ∧
    ((get_split_cells_at Real.sin Real.cos cfg s theta phi).2.2 = true ↔
      cfg.minRadius ≤ s._radius / 2 ∧ s._radius / 2 ≤ cfg.maxRadius) := by
  refine ⟨rfl, ?_⟩
  simp only [get_split_cells_at, check_constraints, mk_from, Bool.and_eq_true,
    decide_eq_true_eq]
  norm_num

/-- C6: `check_constraints` returns true if and only if
`minRadius ≤ radius ≤ maxRadius`; replacing the identifier, center, rotation
and dormant flag of the sphere does not change the result. -/
theorem check_constraints_iff {σ : Type} (cfg : SphereConfig σ ℝ) (s : Sphere ℝ) :
    (check_constraints cfg s = true ↔
      cfg.minRadius ≤ s._radius ∧ s._radius ≤ cfg.maxRadius) ∧
    (∀ (name : String) (position : Point3f ℝ) (rotation : ℝ) (dorm : Bool),
      check_constraints cfg
          { _name := name, _position := position, _radius := s._radius,
            _rotation := rotation, dormant := dorm } =
        check_constraints cfg s) := by
  refine ⟨?_, fun _ _ _ _ => rfl⟩
  simp only [check_constraints, Bool.and_eq_true, decide_eq_true_eq]

/-- C7 (the code at the failing input): with bounds `[1, 20.1]`, radius `10` and
the explicit map `radius ↦ 100`, the clamp of line 108 yields `20.1`, and its
storage in the `float` variable `newRadius` rounds it up to
`10538189 / 524288 = 20.100000381...`, above `maxRadius`: the returned sphere
fails `check_constraints`. -/
theorem get_parameterized_cell_clamp_narrowed :
    (fixed_config (0 : ℝ) 0 0 0 1 20.1).minRadius
      ≤ (fixed_config (0 : ℝ) 0 0 0 1 20.1).maxRadius ∧
    (get_parameterized_cell (fixed_config (0 : ℝ) 0 0 0 1 20.1) (mk_from ⟨"A", 0, 0, 0, 10⟩)
        [("radius", 100)] 0).1._radius = 10538189 / 524288 ∧
    (fixed_config (0 : ℝ) 0 0 0 1 20.1).maxRadius <
      (get_parameterized_cell (fixed_config (0 : ℝ) 0 0 0 1 20.1) (mk_from ⟨"A", 0, 0, 0, 10⟩)
        [("radius", 100)] 0).1._radius ∧
    check_constraints (fixed_config (0 : ℝ) 0 0 0 1 20.1)
      (get_parameterized_cell (fixed_config (0 : ℝ) 0 0 0 1 20.1) (mk_from ⟨"A", 0, 0, 0, 10⟩)
        [("radius", 100)] 0).1 = false := by
  have hr : (get_parameterized_cell (fixed_config (0 : ℝ) 0 0 0 1 20.1)
      (mk_from ⟨"A", 0, 0, 0, 10⟩) [("radius", 100)] 0).1._radius = 10538189 / 524288 := by
    have hg : DefaultDict.get ([("radius", 100)] : DefaultDict ℝ) "radius" = 100 := by
      simp [DefaultDict.get, List.lookup]
    have he : DefaultDict.empty ([("radius", 100)] : DefaultDict ℝ) = false := rfl
    simp only [get_parameterized_cell, mk_from, fixed_config, he, hg, to_float_hundred,
      Bool.false_eq_true, if_false]
    norm_num [to_float_twenty_point_one]
  refine ⟨by norm_num [fixed_config], hr, ?_, ?_⟩
  · rw [hr]
    norm_num [fixed_config]
  · simp only [check_constraints, hr]
    norm_num [fixed_config]

/-- Counterexample to C8 as stated: the sphere at `x = 2^25` with the explicit
map `x ↦ 1`. The result is stored at `x' = 2^25`, not at
`x + offsets[x] = 2^25 + 1`, which is not a binary32 value. -/
theorem get_parameterized_cell_explicit_counterexample :
    ([("x", 1)] : DefaultDict ℝ) ≠ [] ∧
    (get_parameterized_cell (fixed_config (0 : ℝ) 0 0 0 1 20)
        (mk_from ⟨"A", 33554432, 0, 0, 10⟩) [("x", 1)] 0).1._position.x ≠
      (mk_from (⟨"A", 33554432, 0, 0, 10⟩ : SphereParams ℝ))._position.x
        + DefaultDict.get [("x", 1)] "x" := by
  have hg : DefaultDict.get ([("x", 1)] : DefaultDict ℝ) "x" = 1 := by
    simp [DefaultDict.get, List.lookup]
  have he : DefaultDict.empty ([("x", 1)] : DefaultDict ℝ) = false := rfl
  refine ⟨by simp, ?_⟩
  simp only [get_parameterized_cell, mk_from, he, hg, to_float_one, to_float_two_pow_25,
    Bool.false_eq_true, if_false]
  norm_num [to_float_two_pow_25_succ, to_float_two_pow_25]

/-- C8 (as amended): with a non-empty offset map `get_parameterized_cell` keeps
the identifier and moves the center by the map's `x`, `y` and `z` entries in
binary32 arithmetic: `x' = to_float (x + to_float offsets[x])`, and likewise for
`y` and `z`. A key that the map does not carry reads as `0` and leaves that
coordinate of a constructor-made sphere as it is; a key the map carries first
reads as its value. The random source is returned as it was received and the
result does not depend on the samplers of the configuration. -/
theorem get_parameterized_cell_explicit {σ : Type} (cfg : SphereConfig σ ℝ) (s : Sphere ℝ)
    (params : DefaultDict ℝ) (rng : σ) (hne : params ≠ []) :
    (get_parameterized_cell cfg s params rng).1._name = s._name ∧
    (get_parameterized_cell cfg s params rng).1._position.x =
      to_float (s._position.x + to_float (DefaultDict.get params "x")) ∧
    (get_parameterized_cell cfg s params rng).1._position.y =
      to_float (s._position.y + to_float (DefaultDict.get params "y")) ∧
    (get_parameterized_cell cfg s params rng).1._position.z =
      to_float (s._position.z + to_float (DefaultDict.get params "z")) ∧
    (∀ key : String, (∀ v, (key, v) ∉ params) → DefaultDict.get params key = 0) ∧
    (∀ p : SphereParams ℝ, (∀ v, ("x", v) ∉ params) →
      (get_parameterized_cell cfg (mk_from p) params rng).1._position.x =
        (mk_from p)._position.x) ∧
    (∀ (key : String) (v : ℝ) (rest : DefaultDict ℝ),
      DefaultDict.get ((key, v) :: rest) key = v) ∧
    (get_parameterized_cell cfg s params rng).2 = rng ∧
    (∀ px py pz pr : PerturbParams σ ℝ,
      get_parameterized_cell
          { x := px, y := py, z := pz, radius := pr,
            minRadius := cfg.minRadius, maxRadius := cfg.maxRadius } s params rng =
        get_parameterized_cell cfg s params rng) := by
  have he : DefaultDict.empty params = false := by
    cases params with
    | nil => exact absurd rfl hne
    | cons p ps => rfl
  refine ⟨rfl, ?_, ?_, ?_, fun key h => DefaultDict_get_absent params key h, ?_, ?_, ?_, ?_⟩
  · simp [get_parameterized_cell, mk_from, he, to_float_to_float]
  · simp [get_parameterized_cell, mk_from, he, to_float_to_float]
  · simp [get_parameterized_cell, mk_from, he, to_float_to_float]
  · intro p h
    have h0 := DefaultDict_get_absent params "x" h
    simp [get_parameterized_cell, mk_from, he, h0, to_float_zero, to_float_to_float]
  · intro key v rest
    simp [DefaultDict.get, List.lookup_cons]
  · simp [get_parameterized_cell, he]
  · intro px py pz pr
    simp [get_parameterized_cell, he]

/-- Instance of C8: the map with the single entry `x ↦ 5`. -/
theorem get_parameterized_cell_explicit_witness :
    ([("x", 5)] : DefaultDict ℝ) ≠ [] ∧
    (get_parameterized_cell (fixed_config (1 : ℝ) 2 3 4 1 20) (mk_from ⟨"A", 0, 0, 0, 10⟩)
        [("x", 5)] 0).1._position.x =
      to_float ((mk_from (⟨"A", 0, 0, 0, 10⟩ : SphereParams ℝ))._position.x
        + to_float (DefaultDict.get [("x", 5)] "x")) ∧
    (get_parameterized_cell (fixed_config (1 : ℝ) 2 3 4 1 20) (mk_from ⟨"A", 0, 0, 0, 10⟩)
        [("x", 5)] 0).2 = 0 :=
  ⟨by simp,
   (get_parameterized_cell_explicit (fixed_config (1 : ℝ) 2 3 4 1 20)
      (mk_from ⟨"A", 0, 0, 0, 10⟩) [("x", 5)] 0 (by simp)).2.1,
   (get_parameterized_cell_explicit (fixed_config (1 : ℝ) 2 3 4 1 20)
      (mk_from ⟨"A", 0, 0, 0, 10⟩) [("x", 5)] 0 (by simp)).2.2.2.2.2.2.2.1⟩

/-- Counterexample to C10 as stated: the sphere at `x = 2^25` with the drawn
offset `dx = 1`. The result is stored at `x' = 2^25`, not at `x + dx = 2^25 + 1`,
which is not a binary32 value. -/
theorem get_perturbed_cell_spec_counterexample :
    (get_perturbed_cell (fixed_config (1 : ℝ) 0 0 0 1 20)
        (mk_from ⟨"A", 33554432, 0, 0, 10⟩) 0).1._position.x = 33554432 ∧
    (get_perturbed_cell (fixed_config (1 : ℝ) 0 0 0 1 20)
        (mk_from ⟨"A", 33554432, 0, 0, 10⟩) 0).1._position.x ≠
      (mk_from (⟨"A", 33554432, 0, 0, 10⟩ : SphereParams ℝ))._position.x + 1 := by
  have hx : (get_perturbed_cell (fixed_config (1 : ℝ) 0 0 0 1 20)
      (mk_from ⟨"A", 33554432, 0, 0, 10⟩) 0).1._position.x = 33554432 := by
    simp only [get_perturbed_cell, mk_from, fixed_config, counting_sampler,
      to_float_two_pow_25]
    norm_num [to_float_two_pow_25_succ]
  refine ⟨hx, ?_⟩
  rw [hx]
  simp only [mk_from, to_float_two_pow_25]
  norm_num

/-- C10 (as amended): `get_perturbed_cell` returns a sphere with the same
identifier, whose center is `(x + dx, y + dy, z + dz)` stored in binary32,
coordinate by coordinate, and whose radius is exactly `radius + dr` for the
four drawn offsets, without clamping: with bounds `[1, 20]`, radius `10` and
`dr = 15` the result has radius `25` and fails `check_constraints`. -/
theorem get_perturbed_cell_spec {σ : Type} (cfg : SphereConfig σ ℝ) (s : Sphere ℝ) (rng : σ) :
    (get_perturbed_cell cfg s rng).1 =
      { _name := s._name
        _position :=
          ⟨to_float (s._position.x + (cfg.x.get_perturb_offset rng).1),
           to_float (s._position.y +
            (cfg.y.get_perturb_offset (cfg.x.get_perturb_offset rng).2).1),
           to_float (s._position.z +
            (cfg.z.get_perturb_offset
              (cfg.y.get_perturb_offset (cfg.x.get_perturb_offset rng).2).2).1)⟩
        _radius := s._radius +
          (cfg.radius.get_perturb_offset
            (cfg.z.get_perturb_offset
              (cfg.y.get_perturb_offset (cfg.x.get_perturb_offset rng).2).2).2).1
        _rotation := 0
        dormant := false } ∧
    (∀ (dx dy dz dr : ℝ) (draws : ℕ),
      get_perturbed_cell (fixed_config dx dy dz dr cfg.minRadius cfg.maxRadius) s draws =
        ({ _name := s._name
           _position :=
             ⟨to_float (s._position.x + dx), to_float (s._position.y + dy),
              to_float (s._position.z + dz)⟩
           _radius := s._radius + dr
           _rotation := 0
           dormant := false }, draws + 4)) ∧
    (get_perturbed_cell (fixed_config (1 : ℝ) 2 3 15 1 20)
        (mk_from ⟨"A", 0, 0, 0, 10⟩) 0).1._radius = 25 ∧
    check_constraints (fixed_config (1 : ℝ) 2 3 15 1 20)
      (get_perturbed_cell (fixed_config (1 : ℝ) 2 3 15 1 20)
        (mk_from ⟨"A", 0, 0, 0, 10⟩) 0).1 = false := by
  refine ⟨rfl, fun _ _ _ _ _ => rfl, ?_, ?_⟩
  · simp only [get_perturbed_cell, mk_from, fixed_config, counting_sampler]
    norm_num
  · simp only [get_perturbed_cell, mk_from, fixed_config, counting_sampler, check_constraints]
    norm_num

/-- C12 (the code at the failing input): the `float` overload of lines 146-151
on the sphere at the origin whose radius is the binary32 value
`0.1f = 13421773 / 134217728`, at the height `z = 0.1f`. The guard
`|cz - z| > r` is false, since `|cz - z| = r`, so the square root is reached;
the `float` product `(cz - z) * (cz - z)` rounds up to `10737419 / 2^30`, above
the `double` product `r * r`, and the argument of the square root is
`-7381975 / 2^54 < 0`, whatever `sqrt` is. -/
theorem get_radius_at_float_negative_argument :
    (∀ sqrt : ℝ → ℝ,
      get_radius_at_float sqrt (mk_from ⟨"A", 0, 0, 0, 13421773 / 134217728⟩)
          (13421773 / 134217728) =
        to_float (sqrt (-7381975 / 18014398509481984))) ∧
    (-7381975 / 18014398509481984 : ℝ) < 0 := by
  have hz : to_float (13421773 / 134217728 : ℝ) = 13421773 / 134217728 :=
    to_float_of_eq _ (-4) 13421773 (by norm_num) (by norm_num) (by norm_num) (by norm_num)
  have hd : to_float (-(13421773 / 134217728) : ℝ) = -(13421773 / 134217728) := by
    rw [to_float_neg, hz]
  have hsq : to_float (180143990463529 / 18014398509481984 : ℝ) = 10737419 / 1073741824 := by
    rw [to_float_of_near (180143990463529 / 18014398509481984 : ℝ) (-7) 10737419
      (by norm_num) (by norm_num) (by norm_num) (by norm_num) (by norm_num)]
    norm_num
  have hg : ¬ (|(-(13421773 / 134217728) : ℝ)| > 13421773 / 134217728) := by
    rw [abs_neg, abs_of_pos (by norm_num)]
    exact lt_irrefl _
  refine ⟨fun sqrt => ?_, by norm_num⟩
  simp only [get_radius_at_float, mk_from, to_float_zero, zero_sub, hz, hd, if_neg hg]
  norm_num [hsq]

/-- C15: `check_if_cells_overlap` returns the same result on every permutation
of a population as on the population itself. -/
theorem check_if_cells_overlap_perm (spheres permuted : List (Sphere ℝ))
    (h : permuted.Perm spheres) :
    check_if_cells_overlap Real.sqrt permuted = check_if_cells_overlap Real.sqrt spheres := by
  have hiff : check_if_cells_overlap Real.sqrt permuted = false ↔
      check_if_cells_overlap Real.sqrt spheres = false := by
    rw [check_if_cells_overlap_false_iff, check_if_cells_overlap_false_iff]
    exact h.pairwise_iff (fun {x y} hxy hyx => hxy (pair_overlaps_symm Real.sqrt _ _ hyx))
  cases h1 : check_if_cells_overlap Real.sqrt permuted <;>
    cases h2 : check_if_cells_overlap Real.sqrt spheres
  · rfl
  · rw [hiff.1 h1] at h2
    exact absurd h2 (by decide)
  · rw [hiff.2 h2] at h1
    exact absurd h1 (by decide)
  · rfl

/-- Instance of C15: a population of two cells and its swap. -/
theorem check_if_cells_overlap_perm_witness :
    List.Perm [mk_from (⟨"B", 9, 0, 0, 5⟩ : SphereParams ℝ), mk_from ⟨"A", 0, 0, 0, 5⟩]
      [mk_from ⟨"A", 0, 0, 0, 5⟩, mk_from ⟨"B", 9, 0, 0, 5⟩] ∧
    check_if_cells_overlap Real.sqrt
        [mk_from (⟨"B", 9, 0, 0, 5⟩ : SphereParams ℝ), mk_from ⟨"A", 0, 0, 0, 5⟩] =
      check_if_cells_overlap Real.sqrt
        [mk_from ⟨"A", 0, 0, 0, 5⟩, mk_from ⟨"B", 9, 0, 0, 5⟩] :=
  ⟨List.Perm.swap _ _ _,
   check_if_cells_overlap_perm _ _ (List.Perm.swap _ _ _)⟩

/-- C17: starting from a population in which no identifier is an initial
segment of the identifier at another position (so the identifiers are pairwise
distinct), every sequence of split steps yields a population with the same
property, hence with pairwise distinct identifiers; a single seed cell is such
a starting population. -/
theorem split_steps_ids_unique {σ : Type} (cfg : SphereConfig σ ℝ)
    (population : List (Sphere ℝ)) (steps : List (ℕ × ℝ × ℝ))
    (h : ids_independent population) :
    ids_independent (split_steps Real.sin Real.cos cfg population steps) ∧
    ((split_steps Real.sin Real.cos cfg population steps).map (fun cell => cell._name)).Nodup ∧
    (∀ seed : Sphere ℝ,
      ids_independent (split_steps Real.sin Real.cos cfg [seed] steps)) := by
  have hseed : ∀ seed : Sphere ℝ, ids_independent [seed] := by
    intro seed
    simp [ids_independent]
  have hall := split_steps_ids_independent_gen Real.sin Real.cos cfg steps
  exact ⟨hall population h, ids_independent_nodup _ (hall population h),
    fun seed => hall [seed] (hseed seed)⟩

/-- Instance of C17: the seed `A` split once, then its second daughter split. -/
theorem split_steps_ids_unique_witness :
    ids_independent [mk_from (⟨"A", 0, 0, 0, 10⟩ : SphereParams ℝ)] ∧
    ((split_steps Real.sin Real.cos (fixed_config (0 : ℝ) 0 0 0 1 20)
        [mk_from (⟨"A", 0, 0, 0, 10⟩ : SphereParams ℝ)]
        [(0, 0, Real.pi / 2), (1, 0, 0)]).map (fun cell => cell._name)).Nodup :=
  ⟨by simp [ids_independent],
   (split_steps_ids_unique (fixed_config (0 : ℝ) 0 0 0 1 20)
      [mk_from (⟨"A", 0, 0, 0, 10⟩ : SphereParams ℝ)] [(0, 0, Real.pi / 2), (1, 0, 0)]
      (by simp [ids_independent])).2.1⟩

/-- C20 (the code at the failing input): the sphere `A` of radius `10.1` passes
`check_constraints` for the bounds `[1, 20]`. With explicit all-zero offsets
`get_parameterized_cell` stores the clamped radius in the `float` variable
`newRadius` and returns radius `5295309 / 524288 = 10.100000381...`, so the
sphere is not returned unchanged; `get_perturbed_cell` with the four samples
`0` keeps the `double` radius `10.1`, so the two entry points disagree. -/
theorem perturbation_entry_points_disagree :
    check_constraints (fixed_config (0 : ℝ) 0 0 0 1 20)
      (mk_from ⟨"A", 0, 0, 0, 10.1⟩) = true ∧
    (get_parameterized_cell (fixed_config (0 : ℝ) 0 0 0 1 20) (mk_from ⟨"A", 0, 0, 0, 10.1⟩)
        [("x", 0), ("y", 0), ("z", 0), ("radius", 0)] 0).1._radius = 5295309 / 524288 ∧
    (get_perturbed_cell (fixed_config (0 : ℝ) 0 0 0 1 20)
        (mk_from ⟨"A", 0, 0, 0, 10.1⟩) 0).1._radius = 10.1 ∧
    (get_parameterized_cell (fixed_config (0 : ℝ) 0 0 0 1 20) (mk_from ⟨"A", 0, 0, 0, 10.1⟩)
        [("x", 0), ("y", 0), ("z", 0), ("radius", 0)] 0).1 ≠
      (get_perturbed_cell (fixed_config (0 : ℝ) 0 0 0 1 20)
        (mk_from ⟨"A", 0, 0, 0, 10.1⟩) 0).1 ∧
    (get_parameterized_cell (fixed_config (0 : ℝ) 0 0 0 1 20) (mk_from ⟨"A", 0, 0, 0, 10.1⟩)
        [("x", 0), ("y", 0), ("z", 0), ("radius", 0)] 0).1 ≠
      mk_from ⟨"A", 0, 0, 0, 10.1⟩ := by
  obtain ⟨gx, gy, gz, gr⟩ := DefaultDict_get_explicit (0 : ℝ) 0 0 0
  have he : DefaultDict.empty
      ([("x", 0), ("y", 0), ("z", 0), ("radius", 0)] : DefaultDict ℝ) = false := rfl
  have hr : (get_parameterized_cell (fixed_config (0 : ℝ) 0 0 0 1 20)
      (mk_from ⟨"A", 0, 0, 0, 10.1⟩)
      [("x", 0), ("y", 0), ("z", 0), ("radius", 0)] 0).1._radius = 5295309 / 524288 := by
    simp only [get_parameterized_cell, mk_from, fixed_config, he, gr, to_float_zero,
      Bool.false_eq_true, if_false]
    norm_num [to_float_ten_point_one]
  have hp : (get_perturbed_cell (fixed_config (0 : ℝ) 0 0 0 1 20)
      (mk_from ⟨"A", 0, 0, 0, 10.1⟩) 0).1._radius = 10.1 := by
    simp only [get_perturbed_cell, mk_from, fixed_config, counting_sampler]
    norm_num
  refine ⟨?_, hr, hp, ?_, ?_⟩
  · simp only [check_constraints, mk_from, fixed_config]
    norm_num
  · intro h
    have h2 := congrArg Sphere._radius h
    rw [hr, hp] at h2
    norm_num at h2
  · intro h
    have h2 := congrArg Sphere._radius h
    rw [hr] at h2
    simp only [mk_from] at h2
    norm_num at h2

end CellUniverse
